import Mathlib

/-!
# Verification of the GPU listing standardizer

Shallow embedding of `src/data/standardizer.py` (class `GPUDataStandardizer`).
Text is modelled as `List Char` with ASCII case semantics (`Char.toLower` /
`Char.toUpper` agree with Python's `str.lower` / `str.upper` on ASCII).
Python regular-expression searches are embedded as hand-written scanners that
reproduce `re.search`'s leftmost-match, greedy-with-preference semantics for
the concrete patterns of the source; prices are modelled as exact rationals
(every captured price literal `d+(,ddd)*(.dd)?` is compared against the
integer band bounds 10 and 10000, where rational and IEEE comparison agree).
-/

/-- Text, as a list of characters. -/
abbrev Str := List Char

/-- Python `str` whitespace for `strip()`: space, tab, newline, carriage
return, vertical tab, form feed. -/
def pyIsSpace (c : Char) : Bool :=
  c == ' ' || c == '\t' || c == '\n' || c == '\r' || c == '\x0b' || c == '\x0c'

/-- Python `str.strip()`: remove leading and trailing whitespace. -/
def pyStrip (s : Str) : Str :=
  ((s.dropWhile pyIsSpace).reverse.dropWhile pyIsSpace).reverse

/-- Python `str.title()` helper: the boolean tracks whether the previous
character was cased (a letter, in the ASCII model). -/
def pyTitleAux : Bool → Str → Str
  | _, [] => []
  | prevCased, c :: cs =>
    let cased := c.isAlpha
    let c' := if cased then (if prevCased then Char.toLower c else Char.toUpper c) else c
    c' :: pyTitleAux cased cs

/-- Python `str.title()`. -/
def pyTitle (s : Str) : Str := pyTitleAux false s

/-- Case-sensitive literal match at the head of `s`; on success returns the
rest of `s` after the literal. -/
def litCS : Str → Str → Option Str
  | [], s => some s
  | _ :: _, [] => none
  | p :: ps, c :: cs => if c = p then litCS ps cs else none

/-- Case-insensitive (ASCII) literal match at the head of `s`; the pattern is
given in lowercase, as in the source's `re.IGNORECASE` patterns. -/
def lit : Str → Str → Option Str
  | [], s => some s
  | _ :: _, [] => none
  | p :: ps, c :: cs => if Char.toLower c = p then lit ps cs else none

/-- Does `p` occur at the head of some suffix of `s`? Generic driver for
substring-style checks. -/
def anySuffix (p : Str → Bool) : Str → Bool
  | [] => p []
  | c :: cs => p (c :: cs) || anySuffix p cs

/-- Python's substring test `p in s` (case-sensitive). -/
def containsSub (p s : Str) : Bool :=
  anySuffix (fun t => (litCS p t).isSome) s

/-- `re.search`: try the matcher at each position from the left; first
position where it succeeds wins. -/
def searchFirst (f : Str → Option α) : Str → Option α
  | [] => f []
  | c :: cs =>
    match f (c :: cs) with
    | some r => some r
    | none => searchFirst f cs

/-- `t` is a suffix of `s` (the tail of the text from some search position). -/
def IsTail (t s : Str) : Prop := ∃ a, s = a ++ t

/-- Parse a run of decimal digits as a natural number (Python `int` on a
`\d+` capture, which never raises). -/
def parseNatDigits (ds : Str) : Nat :=
  ds.foldl (fun n c => n * 10 + (c.toNat - 48)) 0

/-- Capture exactly two decimal digits (`(\d{2})`), returning them and the
rest of the text. -/
def digits2 : Str → Option (Str × Str)
  | d1 :: d2 :: r => if d1.isDigit && d2.isDigit then some ([d1, d2], r) else none
  | _ => none

/-- Capture exactly three decimal digits (`(\d{3})`). -/
def digits3 : Str → Option (Str × Str)
  | d1 :: d2 :: d3 :: r =>
    if d1.isDigit && d2.isDigit && d3.isDigit then some ([d1, d2, d3], r) else none
  | _ => none

/-- Capture exactly four decimal digits (`(\d{4})`). -/
def digits4 : Str → Option (Str × Str)
  | d1 :: d2 :: d3 :: d4 :: r =>
    if d1.isDigit && d2.isDigit && d3.isDigit && d4.isDigit then
      some ([d1, d2, d3, d4], r)
    else none
  | _ => none

/-- Capture a maximal nonempty digit run (`(\d+)`), returning it and the rest. -/
def digitsPlus (s : Str) : Option (Str × Str) :=
  let ds := s.takeWhile Char.isDigit
  if ds.isEmpty then none else some (ds, s.dropWhile Char.isDigit)

/-!
## NVIDIA patterns (`nvidia_patterns`, in the source's declaration order)

Each matcher embeds one pattern at a fixed position; `searchFirst` supplies
`re.search`. The trailing `(?:\s*ti)?` of the source patterns is non-capturing
and optional, so it affects neither match existence, nor the leftmost match
position, nor group 1; it is therefore not materialised. The literal parts
never clash with `\s*` or `\d`, so greedy matching is deterministic.
-/

/-- `rtx\s*50(\d{2})(?:\s*ti)?` at a fixed position, yielding group 1. -/
def matchRtx50At (s : Str) : Option Str :=
  match lit "rtx".toList s with
  | none => none
  | some r =>
    match lit "50".toList (r.dropWhile pyIsSpace) with
    | none => none
    | some r2 => (digits2 r2).map (·.1)

/-- `rtx\s*40(\d{2})(?:\s*ti)?` at a fixed position, yielding group 1. -/
def matchRtx40At (s : Str) : Option Str :=
  match lit "rtx".toList s with
  | none => none
  | some r =>
    match lit "40".toList (r.dropWhile pyIsSpace) with
    | none => none
    | some r2 => (digits2 r2).map (·.1)

/-- `rtx\s*4(\d{3})(?:\s*ti)?` at a fixed position, yielding group 1. -/
def matchRtx4xAt (s : Str) : Option Str :=
  match lit "rtx".toList s with
  | none => none
  | some r =>
    match lit "4".toList (r.dropWhile pyIsSpace) with
    | none => none
    | some r2 => (digits3 r2).map (·.1)

/-- `rtx\s*30(\d{2})(?:\s*ti)?` at a fixed position, yielding group 1. -/
def matchRtx30At (s : Str) : Option Str :=
  match lit "rtx".toList s with
  | none => none
  | some r =>
    match lit "30".toList (r.dropWhile pyIsSpace) with
    | none => none
    | some r2 => (digits2 r2).map (·.1)

/-- `rtx\s*3(\d{3})(?:\s*ti)?` at a fixed position, yielding group 1. -/
def matchRtx3xAt (s : Str) : Option Str :=
  match lit "rtx".toList s with
  | none => none
  | some r =>
    match lit "3".toList (r.dropWhile pyIsSpace) with
    | none => none
    | some r2 => (digits3 r2).map (·.1)

/-- `geforce\s*rtx\s*(\d{4})(?:\s*ti)?` at a fixed position, yielding group 1. -/
def matchGeforceAt (s : Str) : Option Str :=
  match lit "geforce".toList s with
  | none => none
  | some r =>
    match lit "rtx".toList (r.dropWhile pyIsSpace) with
    | none => none
    | some r2 => (digits4 (r2.dropWhile pyIsSpace)).map (·.1)

/-!
## AMD patterns (`amd_patterns`)

`rx\s*7(\d{3})\s*(xt|gre)?` and friends: after the three digits, greedy `\s*`
then the alternation `xt` before `gre` (both start with non-whitespace letters,
so the greedy whitespace skip is deterministic). Group 2 is the matched slice
of the original text (later uppercased by the caller). -/

/-- `(\d{3})\s*(xt|gre)?`: the common tail of all AMD patterns. -/
def amdDigitsSuffixAt (s : Str) : Option (Str × Option Str) :=
  match digits3 s with
  | none => none
  | some (g1, r) =>
    let r1 := r.dropWhile pyIsSpace
    match lit "xt".toList r1 with
    | some _ => some (g1, some (r1.take 2))
    | none =>
      match lit "gre".toList r1 with
      | some _ => some (g1, some (r1.take 3))
      | none => some (g1, none)

/-- `rx\s*7(\d{3})\s*(xt|gre)?` at a fixed position. -/
def matchRx7At (s : Str) : Option (Str × Option Str) :=
  match lit "rx".toList s with
  | none => none
  | some r =>
    match lit "7".toList (r.dropWhile pyIsSpace) with
    | none => none
    | some r2 => amdDigitsSuffixAt r2

/-- `radeon\s*rx\s*7(\d{3})\s*(xt|gre)?` at a fixed position. -/
def matchRadeonRx7At (s : Str) : Option (Str × Option Str) :=
  match lit "radeon".toList s with
  | none => none
  | some r =>
    match lit "rx".toList (r.dropWhile pyIsSpace) with
    | none => none
    | some r2 =>
      match lit "7".toList (r2.dropWhile pyIsSpace) with
      | none => none
      | some r3 => amdDigitsSuffixAt r3

/-- `rx\s*6(\d{3})\s*(xt|gre)?` at a fixed position. -/
def matchRx6At (s : Str) : Option (Str × Option Str) :=
  match lit "rx".toList s with
  | none => none
  | some r =>
    match lit "6".toList (r.dropWhile pyIsSpace) with
    | none => none
    | some r2 => amdDigitsSuffixAt r2

/-- `radeon\s*rx\s*6(\d{3})\s*(xt|gre)?` at a fixed position. -/
def matchRadeonRx6At (s : Str) : Option (Str × Option Str) :=
  match lit "radeon".toList s with
  | none => none
  | some r =>
    match lit "rx".toList (r.dropWhile pyIsSpace) with
    | none => none
    | some r2 =>
      match lit "6".toList (r2.dropWhile pyIsSpace) with
      | none => none
      | some r3 => amdDigitsSuffixAt r3

/-!
## Intel patterns (`intel_patterns`)
-/

/-- `arc\s*(a\d{3}|b\d{3})` at a fixed position, yielding the group-1 slice
(original characters). -/
def matchArcAt (s : Str) : Option Str :=
  match lit "arc".toList s with
  | none => none
  | some r =>
    match r.dropWhile pyIsSpace with
    | [] => none
    | c :: rest =>
      if Char.toLower c = 'a' || Char.toLower c = 'b' then
        match digits3 rest with
        | some (ds, _) => some (c :: ds)
        | none => none
      else none

/-- `intel\s*arc\s*(a\d{3}|b\d{3})` at a fixed position. -/
def matchIntelArcAt (s : Str) : Option Str :=
  match lit "intel".toList s with
  | none => none
  | some r => matchArcAt (r.dropWhile pyIsSpace)

/-!
## VRAM extraction (`_extract_vram`, `vram_patterns`)

Four patterns tried in order; a match whose parsed value falls outside
`[1, 24]` falls through to the *next pattern* (not to the next position), as
in the source loop. In pattern 2 the trailing `(?:\s*gddr\d*)?` is optional
and non-capturing, hence not materialised. In each pattern the character
after the greedy `\d+`/`\s*` runs is a letter, so greedy matching is
deterministic. `int()` on a `\d+` capture never raises, so the source's
`except ValueError: continue` is dead code. -/

/-- `(\d+)\s*gb\s*vram` at a fixed position, yielding group 1. -/
def vram1At (s : Str) : Option Str :=
  match digitsPlus s with
  | none => none
  | some (ds, r) =>
    match lit "gb".toList (r.dropWhile pyIsSpace) with
    | none => none
    | some r2 =>
      match lit "vram".toList (r2.dropWhile pyIsSpace) with
      | some _ => some ds
      | none => none

/-- `(\d+)\s*gb(?:\s*gddr\d*)?` at a fixed position, yielding group 1. -/
def vram2At (s : Str) : Option Str :=
  match digitsPlus s with
  | none => none
  | some (ds, r) =>
    match lit "gb".toList (r.dropWhile pyIsSpace) with
    | some _ => some ds
    | none => none

/-- `(\d+)gb` at a fixed position (no whitespace allowed), yielding group 1. -/
def vram3At (s : Str) : Option Str :=
  match digitsPlus s with
  | none => none
  | some (ds, r) =>
    match lit "gb".toList r with
    | some _ => some ds
    | none => none

/-- `vram:\s*(\d+)\s*gb` at a fixed position, yielding group 1. -/
def vram4At (s : Str) : Option Str :=
  match lit "vram:".toList s with
  | none => none
  | some r =>
    match digitsPlus (r.dropWhile pyIsSpace) with
    | none => none
    | some (ds, r2) =>
      match lit "gb".toList (r2.dropWhile pyIsSpace) with
      | some _ => some ds
      | none => none

/-- One step of the `_extract_vram` loop: if this pattern matched, accept its
value when it lies in `[1, 24]`, otherwise continue with the next pattern. -/
def vramAccept (r : Option Str) (next : Option Nat) : Option Nat :=
  match r with
  | some ds =>
    let v := parseNatDigits ds
    if 1 ≤ v ∧ v ≤ 24 then some v else next
  | none => next

/-- `GPUDataStandardizer._extract_vram`. -/
def extractVram (text : Str) : Option Nat :=
  vramAccept (searchFirst vram1At text)
    (vramAccept (searchFirst vram2At text)
      (vramAccept (searchFirst vram3At text)
        (vramAccept (searchFirst vram4At text) none)))

/-!
## Card manufacturer extraction (`_extract_card_manufacturer`,
`manufacturer_patterns`)

Each alias pattern is either `\bNAME\b` (a word with `\b` boundaries; Python
`\w` restricted to its ASCII part `[A-Za-z0-9_]`) or `NAME\s+WORD`. Only
match existence is used by the source, so aliases evaluate to booleans. -/

/-- An ASCII word character (`\w`). -/
def isWordChar (c : Char) : Bool := c.isAlphanum || c == '_'

/-- `\bW\b` at a fixed position, given the character just before that
position (`W` starts and ends with word characters, so the `\b`s reduce to
the neighbour checks). -/
def bwordAt (w : Str) (prev : Option Char) (s : Str) : Bool :=
  (match prev with
   | none => true
   | some pc => !isWordChar pc) &&
  (match lit w s with
   | some rest =>
     match rest with
     | [] => true
     | c :: _ => !isWordChar c
   | none => false)

/-- `\bW\b` somewhere in the text, scanning with the previous character to
decide the left boundary. -/
def bwordFrom (w : Str) (prev : Option Char) : Str → Bool
  | [] => bwordAt w prev []
  | c :: cs => bwordAt w prev (c :: cs) || bwordFrom w (some c) cs

/-- `W1\s+W2` at a fixed position (`\s+` greedy; `W2` starts with a letter,
so the greedy whitespace run is deterministic). -/
def seqAt (w1 w2 : Str) (s : Str) : Bool :=
  match lit w1 s with
  | some r => !(r.takeWhile pyIsSpace).isEmpty && (lit w2 (r.dropWhile pyIsSpace)).isSome
  | none => false

/-- The two shapes of alias pattern in `manufacturer_patterns`. -/
inductive BrandPat where
  | word (w : Str)
  | seq (w1 w2 : Str)

/-- `re.search` truthiness for one alias pattern. -/
def brandMatches : BrandPat → Str → Bool
  | .word w, text => bwordFrom w none text
  | .seq w1 w2, text => anySuffix (seqAt w1 w2) text

/-- `manufacturer_patterns`, in the source's declaration order. -/
def manufacturer_patterns : List (Str × List BrandPat) :=
  [("MSI".toList, [.word "msi".toList, .seq "msi".toList "gaming".toList,
      .seq "msi".toList "ventus".toList]),
   ("ASUS".toList, [.word "asus".toList, .seq "asus".toList "rog".toList,
      .seq "asus".toList "tuf".toList, .seq "asus".toList "dual".toList]),
   ("Gigabyte".toList, [.word "gigabyte".toList, .seq "gigabyte".toList "gaming".toList,
      .seq "gigabyte".toList "aorus".toList]),
   ("EVGA".toList, [.word "evga".toList, .seq "evga".toList "ftw".toList,
      .seq "evga".toList "sc".toList]),
   ("Sapphire".toList, [.word "sapphire".toList, .seq "sapphire".toList "nitro".toList,
      .seq "sapphire".toList "pulse".toList]),
   ("PowerColor".toList, [.word "powercolor".toList, .seq "powercolor".toList "red".toList]),
   ("XFX".toList, [.word "xfx".toList, .seq "xfx".toList "speedster".toList]),
   ("Zotac".toList, [.word "zotac".toList, .seq "zotac".toList "gaming".toList]),
   ("Palit".toList, [.word "palit".toList, .seq "palit".toList "gamerock".toList]),
   ("Gainward".toList, [.word "gainward".toList, .seq "gainward".toList "phoenix".toList]),
   ("PNY".toList, [.word "pny".toList]),
   ("Inno3D".toList, [.word "inno3d".toList]),
   ("Manli".toList, [.word "manli".toList])]

/-- `GPUDataStandardizer._extract_card_manufacturer`: first brand (in table
order) one of whose alias patterns matches. -/
def extractCardManufacturer (text : Str) : Option Str :=
  manufacturer_patterns.findSome? fun mp =>
    if mp.2.any (fun p => brandMatches p text) then some mp.1 else none

/-!
## GPU identity extraction (`GPUInfo`, `extract_gpu_info`,
`_match_nvidia_patterns`, `_match_amd_patterns`, `_match_intel_patterns`)
-/

/-- The `GPUInfo` dataclass. Confidence is an exact rational (the source's
floats `0.9` and `0.3` are exactly representable comparisons here). -/
structure GPUInfo where
  manufacturer : Str
  series : Str
  model : Str
  vram : Option Nat := none
  card_manufacturer : Option Str := none
  confidence_score : ℚ := 0
deriving DecidableEq

/-- Build the `GPUInfo` of a matched NVIDIA rule: format the model template
(already concatenated by the caller), `strip()` it, append `' Ti'` when the
literal substring `ti` occurs anywhere in the text, then attach VRAM and card
manufacturer extracted from the same text. -/
def mkNvidiaInfo (text series modelCore : Str) : GPUInfo :=
  let model := pyStrip modelCore
  let model := if containsSub "ti".toList text then model ++ " Ti".toList else model
  { manufacturer := "NVIDIA".toList, series := series, model := model,
    vram := extractVram text, card_manufacturer := extractCardManufacturer text,
    confidence_score := mkRat 9 10 }

/-- `GPUDataStandardizer._match_nvidia_patterns`: the six rules in
declaration order, first match wins; model templates `50{g1}`, `40{g1}`,
`4{g1}`, `30{g1}`, `3{g1}`, `{g1}`. -/
def matchNvidia (text : Str) : Option GPUInfo :=
  match searchFirst matchRtx50At text with
  | some g => some (mkNvidiaInfo text "RTX 50".toList ('5' :: '0' :: g))
  | none =>
  match searchFirst matchRtx40At text with
  | some g => some (mkNvidiaInfo text "RTX 40".toList ('4' :: '0' :: g))
  | none =>
  match searchFirst matchRtx4xAt text with
  | some g => some (mkNvidiaInfo text "RTX 40".toList ('4' :: g))
  | none =>
  match searchFirst matchRtx30At text with
  | some g => some (mkNvidiaInfo text "RTX 30".toList ('3' :: '0' :: g))
  | none =>
  match searchFirst matchRtx3xAt text with
  | some g => some (mkNvidiaInfo text "RTX 30".toList ('3' :: g))
  | none =>
  match searchFirst matchGeforceAt text with
  | some g => some (mkNvidiaInfo text "RTX".toList g)
  | none => none

/-- Build the `GPUInfo` of a matched AMD rule: model template
`L{g1}{g2}` where `L` is the leading digit and group 2, when present,
becomes a space plus its uppercased slice; then `strip()`. -/
def mkAmdInfo (text series : Str) (lead : Char) (g : Str × Option Str) : GPUInfo :=
  let suffixPart : Str :=
    match g.2 with
    | some sl => ' ' :: sl.map Char.toUpper
    | none => []
  { manufacturer := "AMD".toList, series := series,
    model := pyStrip (lead :: g.1 ++ suffixPart),
    vram := extractVram text, card_manufacturer := extractCardManufacturer text,
    confidence_score := mkRat 9 10 }

/-- `GPUDataStandardizer._match_amd_patterns`: the four rules in declaration
order. -/
def matchAmd (text : Str) : Option GPUInfo :=
  match searchFirst matchRx7At text with
  | some g => some (mkAmdInfo text "RX 7000".toList '7' g)
  | none =>
  match searchFirst matchRadeonRx7At text with
  | some g => some (mkAmdInfo text "RX 7000".toList '7' g)
  | none =>
  match searchFirst matchRx6At text with
  | some g => some (mkAmdInfo text "RX 6000".toList '6' g)
  | none =>
  match searchFirst matchRadeonRx6At text with
  | some g => some (mkAmdInfo text "RX 6000".toList '6' g)
  | none => none

/-- Build the `GPUInfo` of a matched Intel rule: model template `{g1}` with
the slice uppercased, then `strip()`. -/
def mkIntelInfo (text slice : Str) : GPUInfo :=
  { manufacturer := "Intel".toList, series := "Arc".toList,
    model := pyStrip (slice.map Char.toUpper),
    vram := extractVram text, card_manufacturer := extractCardManufacturer text,
    confidence_score := mkRat 9 10 }

/-- `GPUDataStandardizer._match_intel_patterns`: the two rules in declaration
order. -/
def matchIntel (text : Str) : Option GPUInfo :=
  match searchFirst matchArcAt text with
  | some sl => some (mkIntelInfo text sl)
  | none =>
  match searchFirst matchIntelArcAt text with
  | some sl => some (mkIntelInfo text sl)
  | none => none

/-- `GPUDataStandardizer.extract_gpu_info`: lowercase
`f"{title} {description}"`, then NVIDIA, AMD, Intel pattern groups in that
priority order. -/
def extract_gpu_info (title description : Str) : Option GPUInfo :=
  let text := (title ++ ' ' :: description).map Char.toLower
  match matchNvidia text with
  | some gpu_info => some gpu_info
  | none =>
  match matchAmd text with
  | some gpu_info => some gpu_info
  | none =>
  match matchIntel text with
  | some gpu_info => some gpu_info
  | none => none

/-!
## Price extraction (`extract_price`, `price_patterns`)

`re.sub(r'(ono|or best offer|obo|neg|negotiable)', '', price_text.lower())`
then four patterns in order; a match parses via `float()` after removing
thousands-separator commas, and is accepted only inside the band
`[10, 10000]`, otherwise the *next pattern* is tried. Parsed values are
exact rationals built with `mkRat`; every captured literal has at most two
decimal places, so the band comparison agrees with the float comparison of
the source. -/

/-- Try the qualifier alternation `(ono|or best offer|obo|neg|negotiable)`
at the head of `s`, in the alternation's order; on success return the rest
after the matched qualifier. -/
def qualifierAt (s : Str) : Option Str :=
  match litCS "ono".toList s with
  | some r => some r
  | none =>
  match litCS "or best offer".toList s with
  | some r => some r
  | none =>
  match litCS "obo".toList s with
  | some r => some r
  | none =>
  match litCS "neg".toList s with
  | some r => some r
  | none => litCS "negotiable".toList s

/-- `re.sub` of the qualifier alternation with `''`: scan left to right,
deleting each leftmost non-overlapping match. Fuel is the remaining length
(every step consumes at least one character, so it never runs out). -/
def stripQualifiersAux : Nat → Str → Str
  | 0, s => s
  | _ + 1, [] => []
  | fuel + 1, c :: cs =>
    match qualifierAt (c :: cs) with
    | some rest => stripQualifiersAux fuel rest
    | none => c :: stripQualifiersAux fuel cs

/-- Remove the price-negotiation qualifiers, as `re.sub` does. -/
def stripQualifiers (s : Str) : Str := stripQualifiersAux s.length s

/-- Greedy `(?:,\d{3})*`, returning the matched text and the rest. -/
def commaGreedy : Str → Str × Str
  | ',' :: d1 :: d2 :: d3 :: r =>
    if d1.isDigit && d2.isDigit && d3.isDigit then
      let (g, r') := commaGreedy r
      (',' :: d1 :: d2 :: d3 :: g, r')
    else ([], ',' :: d1 :: d2 :: d3 :: r)
  | s => ([], s)

/-- Greedy `(?:\.\d{2})?`, returning the matched text and the rest. -/
def fracGreedy : Str → Str × Str
  | '.' :: d1 :: d2 :: r =>
    if d1.isDigit && d2.isDigit then (['.', d1, d2], r)
    else ([], '.' :: d1 :: d2 :: r)
  | s => ([], s)

/-- The number group `(\d+(?:,\d{3})*(?:\.\d{2})?)` at a fixed position with
nothing required after it: maximal munch is the unique regex outcome, since
digits, commas and the dot cannot stand in for each other. -/
def numAt (s : Str) : Option Str :=
  match digitsPlus s with
  | none => none
  | some (ds, r) =>
    let (cg, r2) := commaGreedy r
    let (f, _) := fracGreedy r2
    some (ds ++ cg ++ f)

/-- `£(\d+(?:,\d{3})*(?:\.\d{2})?)` at a fixed position, yielding group 1. -/
def price1At : Str → Option Str
  | '£' :: r => numAt r
  | _ => none

/-- All ways to split a digit run for a backtracking `\d+`, longest first. -/
def digitCands (s : Str) : List (Str × Str) :=
  let ds := s.takeWhile Char.isDigit
  let r := s.dropWhile Char.isDigit
  (List.range ds.length).map fun i =>
    (ds.take (ds.length - i), ds.drop (ds.length - i) ++ r)

/-- All comma-group counts for a backtracking `(?:,\d{3})*`, greediest
first. -/
def commaCands : Str → List (Str × Str)
  | ',' :: d1 :: d2 :: d3 :: r =>
    if d1.isDigit && d2.isDigit && d3.isDigit then
      (commaCands r).map (fun gr => (',' :: d1 :: d2 :: d3 :: gr.1, gr.2)) ++
        [([], ',' :: d1 :: d2 :: d3 :: r)]
    else [([], ',' :: d1 :: d2 :: d3 :: r)]
  | s => [([], s)]

/-- Both choices for a backtracking `(?:\.\d{2})?`, present first. -/
def fracCands (s : Str) : List (Str × Str) :=
  match s with
  | '.' :: d1 :: d2 :: r =>
    if d1.isDigit && d2.isDigit then [(['.', d1, d2], r), ([], s)] else [([], s)]
  | _ => [([], s)]

/-- `(\d+(?:,\d{3})*(?:\.\d{2})?)\s*£` at a fixed position: the trailing `£`
can force backtracking, explored in the regex engine's preference order
(longer `\d+` first, then more comma groups, then fraction present). The
greedy `\s*` before the literal `£` is deterministic. -/
def price2At (s : Str) : Option Str :=
  (digitCands s).findSome? fun dc =>
    (commaCands dc.2).findSome? fun cc =>
      (fracCands cc.2).findSome? fun fc =>
        match fc.2.dropWhile pyIsSpace with
        | '£' :: _ => some (dc.1 ++ cc.1 ++ fc.1)
        | _ => none

/-- `£\s*(\d+(?:,\d{3})*(?:\.\d{2})?)` at a fixed position. -/
def price3At : Str → Option Str
  | '£' :: r => numAt (r.dropWhile pyIsSpace)
  | _ => none

/-- The bare-number fallback `(\d+(?:,\d{3})*(?:\.\d{2})?)`. -/
def price4At (s : Str) : Option Str := numAt s

/-- Python `float()` on a captured price group after `replace(',','')`:
digits optionally followed by a dot and digits. The value is exact
(`mkRat`). Returns `none` on any other shape (the source's
`except ValueError: continue`). -/
def pyFloat (s : Str) : Option ℚ :=
  let intPart := s.takeWhile Char.isDigit
  if intPart.isEmpty then none
  else
    match s.dropWhile Char.isDigit with
    | [] => some (mkRat (parseNatDigits intPart) 1)
    | '.' :: ds =>
      if !ds.isEmpty && ds.all Char.isDigit then
        some (mkRat (parseNatDigits (intPart ++ ds)) ((10 : Nat) ^ ds.length))
      else none
    | _ => none

/-- One step of the `extract_price` loop: if this pattern matched, strip the
commas, parse, and accept only inside the `[10, 10000]` band; otherwise (no
match, parse failure, or out of band) continue with the next pattern. -/
def priceAccept (r : Option Str) (next : Option ℚ) : Option ℚ :=
  match r with
  | some g =>
    match pyFloat (g.filter (fun c => !(c == ','))) with
    | some price => if mkRat 10 1 ≤ price ∧ price ≤ mkRat 10000 1 then some price else next
    | none => next
  | none => next

/-- `GPUDataStandardizer.extract_price`. -/
def extract_price (price_text : Str) : Option ℚ :=
  if price_text = [] then none
  else
    let cleaned := stripQualifiers (price_text.map Char.toLower)
    priceAccept (searchFirst price1At cleaned)
      (priceAccept (searchFirst price2At cleaned)
        (priceAccept (searchFirst price3At cleaned)
          (priceAccept (searchFirst price4At cleaned) none)))

/-!
## Condition normalization (`_standardize_condition`, `condition_map`)
-/

/-- `condition_map`, in the source's declaration order. -/
def condition_map : List (Str × List Str) :=
  [("new".toList, ["new".toList, "brand new".toList, "sealed".toList,
      "unopened".toList, "mint".toList]),
   ("like new".toList, ["like new".toList, "excellent".toList, "very good".toList,
      "pristine".toList, "perfect".toList]),
   ("good".toList, ["good".toList, "working".toList, "functional".toList,
      "used - good".toList]),
   ("fair".toList, ["fair".toList, "average".toList, "used - fair".toList,
      "some wear".toList]),
   ("poor".toList, ["poor".toList, "damaged".toList, "faulty".toList,
      "for parts".toList, "spares".toList])]

/-- The nested loops of `_standardize_condition`: first category (in table
order) one of whose variants (in declared order) is a substring of the input
wins, title-cased. -/
def scanConditions : List (Str × List Str) → Str → Option Str
  | [], _ => none
  | (std, variants) :: rest, cl =>
    if variants.any (fun v => containsSub v cl) then some (pyTitle std)
    else scanConditions rest cl

/-- `GPUDataStandardizer._standardize_condition` (for string input; the
falsiness check on non-strings is handled at the `Value` level below). -/
def standardize_condition (condition : Str) : Str :=
  if condition = [] then "Unknown".toList
  else
    let condition_lower := pyStrip (condition.map Char.toLower)
    match scanConditions condition_map condition_lower with
    | some std => std
    | none => pyTitle condition

/-!
## Target filter (`validate_gpu_targets`)
-/

/-- The `config.gpu_targets` structure consumed by `validate_gpu_targets`. -/
structure GpuTargets where
  nvidia_series : List Str
  amd_series : List Str
  intel_models : List Str

/-- The configuration object (only `gpu_targets` is consumed). -/
structure Config where
  gpu_targets : GpuTargets

/-- `GPUDataStandardizer.validate_gpu_targets`. The source's initial
`if not gpu_info: return False` guards a `None` argument; the embedding
takes a `GPUInfo` value. Note: for NVIDIA and AMD the configured string is
tested *as configured* against the lowercased model; only Intel lowercases
the configured target. -/
def validate_gpu_targets (gpu_info : GPUInfo) (config : Config) : Bool :=
  let manufacturer := gpu_info.manufacturer.map Char.toLower
  let model := gpu_info.model.map Char.toLower
  if manufacturer = "nvidia".toList then
    config.gpu_targets.nvidia_series.any (fun series => containsSub series model)
  else if manufacturer = "amd".toList then
    config.gpu_targets.amd_series.any (fun series => containsSub series model)
  else if manufacturer = "intel".toList then
    config.gpu_targets.intel_models.any
      (fun target_model => containsSub (target_model.map Char.toLower) model)
  else false

/-!
## Listing standardization (`standardize_listing`)

Raw listings are Python dictionaries; the source reads a fixed set of keys
with `dict.get`. A field is modelled as `Option Value`: `none` is an absent
key, `some v` a present key (possibly holding Python `None`). `Value`
carries the shapes the pipeline distinguishes: strings, booleans and `None`
(enough to exercise the source's defensive `try/except`, which converts any
exception — e.g. `.strip()` or `.lower()` on a non-string — into a `None`
result). `standardizeE` is the `try` body: `Except.error` is a raised
exception, `.ok none` a normal rejection. -/

/-- A Python value stored in a raw-listing dictionary. -/
inductive Value where
  | vStr (s : Str)
  | vBool (b : Bool)
  | vNone
deriving DecidableEq

/-- Is this value a Python `str`? -/
def Value.isStr : Value → Bool
  | .vStr _ => true
  | _ => false

/-- The raw listing mapping: each field is `none` when the key is absent. -/
structure RawListing where
  title : Option Value := none
  description : Option Value := none
  price : Option Value := none
  condition : Option Value := none
  url : Option Value := none
  marketplace : Option Value := none
  source : Option Value := none
  scraped_at : Option Value := none
  listing_type : Option Value := none
  location : Option Value := none
  seller_info : Option Value := none
  is_sold : Option Value := none
  is_featured : Option Value := none
  shipping : Option Value := none
  posted_date : Option Value := none
  image_url : Option Value := none
deriving DecidableEq

/-- `.strip()` on a Python value: `AttributeError` unless it is a string. -/
def pyStripV : Value → Except Unit Str
  | .vStr s => .ok (pyStrip s)
  | _ => .error ()

/-- `_standardize_condition` on an arbitrary Python value: falsy values
(`''`, `False`, `None`) short-circuit to `'Unknown'` via `if not condition`;
a truthy non-string raises at `.lower()`. -/
def stdConditionV : Value → Except Unit Str
  | .vStr s => .ok (standardize_condition s)
  | .vBool false => .ok "Unknown".toList
  | .vNone => .ok "Unknown".toList
  | .vBool true => .error ()

/-- The standardized listing record built at the end of
`standardize_listing`. -/
structure StandardizedListing where
  title : Str
  description : Str
  price_text : Str
  standardized_price : Option ℚ
  gpu_manufacturer : Str
  gpu_series : Str
  gpu_model : Str
  vram_gb : Option Nat
  card_manufacturer : Option Str
  confidence_score : ℚ
  url : Value
  marketplace : Value
  scraped_at : Value
  listing_type : Value
  condition : Str
  location : Value
  seller_info : Value
  is_sold : Value
  is_featured : Value
  shipping : Value
  posted_date : Value
  image_url : Value
deriving DecidableEq

/-- The `try` body of `standardize_listing`: `.error` is a raised exception
(caught by the wrapper), `.ok none` a rejection. Field order follows the
source: the three `.strip()` calls, the empty-title test, GPU extraction
with the confidence gate, price extraction, then the output record (whose
construction evaluates `_standardize_condition`, the only other fallible
step). -/
def standardizeE (raw : RawListing) : Except Unit (Option StandardizedListing) :=
  match pyStripV (raw.title.getD (.vStr [])),
        pyStripV (raw.description.getD (.vStr [])),
        pyStripV (raw.price.getD (.vStr [])) with
  | .error e, _, _ => .error e
  | .ok _, .error e, _ => .error e
  | .ok _, .ok _, .error e => .error e
  | .ok title, .ok description, .ok price_text =>
    if title = [] then .ok none
    else
      match extract_gpu_info title description with
      | none => .ok none
      | some gpu_info =>
        if gpu_info.confidence_score < mkRat 3 10 then .ok none
        else
          let price := extract_price price_text
          match stdConditionV (raw.condition.getD (.vStr [])) with
          | .error e => .error e
          | .ok condition =>
            .ok (some
              { title := title, description := description, price_text := price_text,
                standardized_price := price,
                gpu_manufacturer := gpu_info.manufacturer,
                gpu_series := gpu_info.series,
                gpu_model := gpu_info.model,
                vram_gb := gpu_info.vram,
                card_manufacturer := gpu_info.card_manufacturer,
                confidence_score := gpu_info.confidence_score,
                url := raw.url.getD .vNone,
                marketplace := raw.marketplace.getD (raw.source.getD .vNone),
                scraped_at := raw.scraped_at.getD .vNone,
                listing_type := raw.listing_type.getD .vNone,
                condition := condition,
                location := raw.location.getD .vNone,
                seller_info := raw.seller_info.getD .vNone,
                is_sold := raw.is_sold.getD (.vBool false),
                is_featured := raw.is_featured.getD (.vBool false),
                shipping := raw.shipping.getD .vNone,
                posted_date := raw.posted_date.getD .vNone,
                image_url := raw.image_url.getD .vNone })

/-- `GPUDataStandardizer.standardize_listing`: the `try/except` wrapper
converts any exception into a rejection. -/
def standardize_listing (raw : RawListing) : Option StandardizedListing :=
  match standardizeE raw with
  | .ok r => r
  | .error _ => none

/-- Feed a standardized listing's own output fields back as a raw listing
(the output dictionary has no `price` or `source` key, and `condition`
holds the normalized string). -/
def toRaw (S : StandardizedListing) : RawListing :=
  { title := some (.vStr S.title), description := some (.vStr S.description),
    price := none, condition := some (.vStr S.condition),
    url := some S.url, marketplace := some S.marketplace, source := none,
    scraped_at := some S.scraped_at, listing_type := some S.listing_type,
    location := some S.location, seller_info := some S.seller_info,
    is_sold := some S.is_sold, is_featured := some S.is_featured,
    shipping := some S.shipping, posted_date := some S.posted_date,
    image_url := some S.image_url }

/-- The raw listing of the spec's end-to-end scenario. -/
def rawScenario : RawListing :=
  { title := some (.vStr "MSI RTX 4090 Gaming X Trio 24GB".toList),
    price := some (.vStr "£1,450.00".toList),
    condition := some (.vStr "Used - Excellent".toList) }

/-!
## Specification mirrors and concrete instances used by the claims
-/

/-- The condition-normalization contract as the specification words it
(claim C2): five categories scanned in the fixed order New, Like New, Good,
Fair, Poor, each matched by its variant substrings against the lowercased,
trimmed input; first hit returns the title-cased category; empty input gives
`Unknown`; otherwise the original input is returned title-cased. -/
def conditionSpecC2 (condition : Str) : Str :=
  if condition = [] then "Unknown".toList
  else
    let cl := pyStrip (condition.map Char.toLower)
    if ["new".toList, "brand new".toList, "sealed".toList, "unopened".toList,
        "mint".toList].any (fun v => containsSub v cl) then "New".toList
    else if ["like new".toList, "excellent".toList, "very good".toList,
        "pristine".toList, "perfect".toList].any (fun v => containsSub v cl) then
      "Like New".toList
    else if ["good".toList, "working".toList, "functional".toList,
        "used - good".toList].any (fun v => containsSub v cl) then "Good".toList
    else if ["fair".toList, "average".toList, "used - fair".toList,
        "some wear".toList].any (fun v => containsSub v cl) then "Fair".toList
    else if ["poor".toList, "damaged".toList, "faulty".toList, "for parts".toList,
        "spares".toList].any (fun v => containsSub v cl) then "Poor".toList
    else pyTitle condition

/-- The target-filter contract as claim C4 words it: at least one configured
target for the identity's manufacturer is a substring of the model under
case-insensitive comparison (both sides lowercased). -/
def claimTargetMatchC4 (gpu_info : GPUInfo) (config : Config) : Bool :=
  let manufacturer := gpu_info.manufacturer.map Char.toLower
  let model := gpu_info.model.map Char.toLower
  if manufacturer = "nvidia".toList then
    config.gpu_targets.nvidia_series.any
      (fun series => containsSub (series.map Char.toLower) model)
  else if manufacturer = "amd".toList then
    config.gpu_targets.amd_series.any
      (fun series => containsSub (series.map Char.toLower) model)
  else if manufacturer = "intel".toList then
    config.gpu_targets.intel_models.any
      (fun target_model => containsSub (target_model.map Char.toLower) model)
  else false

/-- A GPU identity whose model carries an uppercase-sensitive suffix. -/
def infoTiC4 : GPUInfo :=
  { manufacturer := "NVIDIA".toList, series := "RTX 40".toList,
    model := "4090 Ti".toList, confidence_score := mkRat 9 10 }

/-- A configuration whose NVIDIA target list holds an uppercase string. -/
def cfgTiC4 : Config :=
  { gpu_targets :=
      { nvidia_series := ["TI".toList], amd_series := [], intel_models := [] } }

/-- A raw listing whose `title` key holds a non-string (Python `True`). -/
def rawTitleBool : RawListing := { title := some (.vBool true) }

/-- A raw listing whose title matches no GPU pattern. -/
def rawChair : RawListing :=
  { title := some (.vStr "Office Chair for sale".toList) }

/-- A raw listing whose title is whitespace only. -/
def rawBlankTitle : RawListing := { title := some (.vStr "   ".toList) }

/-- A minimal accepted raw listing, used to witness re-standardization. -/
def rawMinimal : RawListing := { title := some (.vStr "rtx 3060".toList) }

/-- The standardized output of `rawMinimal`. -/
def stdMinimal : StandardizedListing :=
  { title := "rtx 3060".toList, description := [], price_text := [],
    standardized_price := none, gpu_manufacturer := "NVIDIA".toList,
    gpu_series := "RTX 30".toList, gpu_model := "3060".toList, vram_gb := none,
    card_manufacturer := none, confidence_score := mkRat 9 10, url := .vNone,
    marketplace := .vNone, scraped_at := .vNone, listing_type := .vNone,
    condition := "Unknown".toList, location := .vNone, seller_info := .vNone,
    is_sold := .vBool false, is_featured := .vBool false, shipping := .vNone,
    posted_date := .vNone, image_url := .vNone }

/-- The GPU identity extracted from the title `"Arc A770"`. -/
def infoArcC5 : GPUInfo :=
  { manufacturer := "Intel".toList, series := "Arc".toList, model := "A770".toList,
    vram := none, card_manufacturer := none, confidence_score := mkRat 9 10 }

/-- The invariant carried by every `GPUInfo` a matcher can build. -/
def GPUInfoInv (g : GPUInfo) : Prop :=
  (g.manufacturer = "NVIDIA".toList ∨ g.manufacturer = "AMD".toList ∨
    g.manufacturer = "Intel".toList) ∧
  g.manufacturer ≠ [] ∧ g.series ≠ [] ∧ g.model ≠ [] ∧
  g.confidence_score = mkRat 9 10 ∧
  (g.vram = none ∨ ∃ v, g.vram = some v ∧ 1 ≤ v ∧ v ≤ 24)

/-!
## Helper lemmas
-/

theorem IsTail.refl (s : Str) : IsTail s s := ⟨[], rfl⟩

theorem IsTail.cons {t s : Str} (c : Char) (h : IsTail t s) : IsTail t (c :: s) := by
  obtain ⟨a, rfl⟩ := h
  exact ⟨c :: a, rfl⟩

theorem isTail_nil {t : Str} (h : IsTail t []) : t = [] := by
  obtain ⟨a, ha⟩ := h
  exact (List.append_eq_nil.mp ha.symm).2

theorem isTail_cons_iff {t : Str} {c : Char} {cs : Str} :
    IsTail t (c :: cs) ↔ t = c :: cs ∨ IsTail t cs := by
  constructor
  · rintro ⟨a, ha⟩
    cases a with
    | nil => exact Or.inl ha.symm
    | cons x a' =>
      right
      obtain ⟨rfl, h2⟩ := List.cons_eq_cons.mp ha
      exact ⟨a', h2⟩
  · rintro (rfl | h)
    · exact IsTail.refl _
    · exact h.cons c

theorem litCS_eq_some {p s r : Str} (h : litCS p s = some r) : s = p ++ r := by
  induction p generalizing s with
  | nil => simpa [litCS] using h
  | cons x ps ih =>
    cases s with
    | nil => simp [litCS] at h
    | cons c cs =>
      rw [litCS] at h
      split at h
      · next heq => simp [heq, ih h]
      · exact absurd h (by simp)

theorem litCS_append (p r : Str) : litCS p (p ++ r) = some r := by
  induction p with
  | nil => rfl
  | cons x ps ih => simp [litCS, ih]

theorem anySuffix_eq_true_iff {q : Str → Bool} {s : Str} :
    anySuffix q s = true ↔ ∃ t, IsTail t s ∧ q t = true := by
  induction s with
  | nil =>
    simp only [anySuffix]
    constructor
    · exact fun h => ⟨[], IsTail.refl [], h⟩
    · rintro ⟨t, ht, hq⟩
      rwa [isTail_nil ht] at hq
  | cons c cs ih =>
    simp only [anySuffix, Bool.or_eq_true, ih]
    constructor
    · rintro (h | ⟨t, ht, hq⟩)
      · exact ⟨c :: cs, IsTail.refl _, h⟩
      · exact ⟨t, ht.cons c, hq⟩
    · rintro ⟨t, ht, hq⟩
      rcases isTail_cons_iff.mp ht with rfl | ht'
      · exact Or.inl hq
      · exact Or.inr ⟨t, ht', hq⟩

theorem containsSub_iff {p s : Str} :
    containsSub p s = true ↔ ∃ a b, s = a ++ p ++ b := by
  rw [containsSub, anySuffix_eq_true_iff]
  constructor
  · rintro ⟨t, ⟨a, rfl⟩, hq⟩
    obtain ⟨r, hr⟩ := Option.isSome_iff_exists.mp hq
    exact ⟨a, r, by rw [litCS_eq_some hr, List.append_assoc]⟩
  · rintro ⟨a, b, rfl⟩
    refine ⟨p ++ b, ⟨a, List.append_assoc a p b⟩, ?_⟩
    rw [litCS_append]
    rfl

theorem containsSub_map {p s : Str} (f : Char → Char) (h : containsSub p s = true) :
    containsSub (p.map f) (s.map f) = true := by
  obtain ⟨a, b, rfl⟩ := containsSub_iff.mp h
  exact containsSub_iff.mpr ⟨a.map f, b.map f, by simp⟩

theorem containsSub_of_within {p q s : Str} (h : containsSub p s = true)
    (a0 b0 : Str) (hp : p = a0 ++ q ++ b0) : containsSub q s = true := by
  obtain ⟨a, b, rfl⟩ := containsSub_iff.mp h
  subst hp
  exact containsSub_iff.mpr ⟨a ++ a0, b0 ++ b, by simp⟩

theorem searchFirst_eq_some {f : Str → Option α} {s : Str} {r : α}
    (h : searchFirst f s = some r) : ∃ t, IsTail t s ∧ f t = some r := by
  induction s with
  | nil => exact ⟨[], IsTail.refl [], h⟩
  | cons c cs ih =>
    rw [searchFirst] at h
    split at h
    · next heq => exact ⟨c :: cs, IsTail.refl _, by rw [heq, h]⟩
    · obtain ⟨t, ht, hf⟩ := ih h
      exact ⟨t, ht.cons c, hf⟩

theorem searchFirst_isSome_of_tail {f : Str → Option α} {s t : Str}
    (ht : IsTail t s) (hf : (f t).isSome) : (searchFirst f s).isSome := by
  induction s with
  | nil => rwa [isTail_nil ht] at hf
  | cons c cs ih =>
    rw [searchFirst]
    rcases isTail_cons_iff.mp ht with rfl | ht'
    · obtain ⟨r, hr⟩ := Option.isSome_iff_exists.mp hf
      simp [hr]
    · split
      · rfl
      · exact ih ht'

theorem dropWhile_dropWhile (p : Char → Bool) (l : Str) :
    (l.dropWhile p).dropWhile p = l.dropWhile p := by
  induction l with
  | nil => rfl
  | cons c cs ih =>
    rw [List.dropWhile_cons]
    split
    · exact ih
    · next h => rw [List.dropWhile_cons, if_neg h]

theorem dropWhile_head_not {p : Char → Bool} {l : Str} {c : Char} {t : Str}
    (h : l.dropWhile p = c :: t) : p c = false := by
  induction l with
  | nil => simp [List.dropWhile] at h
  | cons x xs ih =>
    rw [List.dropWhile_cons] at h
    split at h
    · exact ih h
    · next hx =>
      obtain ⟨rfl, -⟩ := List.cons_eq_cons.mp h
      exact Bool.not_eq_true _ ▸ (by simpa using hx)

theorem dropWhile_eq_self_of_head {p : Char → Bool} {c : Char} {t : Str}
    (h : p c = false) : (c :: t).dropWhile p = c :: t := by
  rw [List.dropWhile_cons, if_neg (by simp [h])]

/-- The left-stripped text is a prefix of the original read backwards:
`pyStrip l` is peeled from the right of `l.dropWhile pyIsSpace`. -/
theorem pyStrip_peel_shape (l : Str) :
    ∃ u, l.dropWhile pyIsSpace = pyStrip l ++ u := by
  obtain ⟨u, hu⟩ := (List.dropWhile_suffix pyIsSpace
    (l := (l.dropWhile pyIsSpace).reverse))
  refine ⟨u.reverse, ?_⟩
  have := congrArg List.reverse hu
  simpa [pyStrip] using this.symm

theorem pyStrip_idem (l : Str) : pyStrip (pyStrip l) = pyStrip l := by
  have hfront : (pyStrip l).dropWhile pyIsSpace = pyStrip l := by
    obtain ⟨u, hu⟩ := pyStrip_peel_shape l
    cases hs : pyStrip l with
    | nil => rfl
    | cons c t =>
      refine dropWhile_eq_self_of_head ?_
      refine dropWhile_head_not (l := l) (t := t ++ u) ?_
      rw [hu, hs]
      rfl
  rw [pyStrip, hfront, pyStrip, List.reverse_reverse, dropWhile_dropWhile]

theorem mem_dropWhile_of_not {p : Char → Bool} {c : Char} {l : Str}
    (hm : c ∈ l) (hc : p c = false) : c ∈ l.dropWhile p := by
  induction l with
  | nil => cases hm
  | cons x xs ih =>
    rw [List.dropWhile_cons]
    split
    · next hx =>
      rcases List.mem_cons.mp hm with rfl | hm'
      · rw [hx] at hc; cases hc
      · exact ih hm'
    · exact hm

theorem pyStrip_ne_nil {c : Char} {l : Str} (hm : c ∈ l)
    (hc : pyIsSpace c = false) : pyStrip l ≠ [] := by
  intro h
  have h1 : c ∈ l.dropWhile pyIsSpace := mem_dropWhile_of_not hm hc
  have h2 : c ∈ (l.dropWhile pyIsSpace).reverse := List.mem_reverse.mpr h1
  have h3 : c ∈ (l.dropWhile pyIsSpace).reverse.dropWhile pyIsSpace :=
    mem_dropWhile_of_not h2 hc
  rw [pyStrip] at h
  rw [List.reverse_eq_nil_iff.mp h] at h3
  cases h3

theorem pyStrip_eq_self {l : Str}
    (h1 : ∀ c, l.head? = some c → pyIsSpace c = false)
    (h2 : ∀ c, l.getLast? = some c → pyIsSpace c = false) : pyStrip l = l := by
  cases l with
  | nil => rfl
  | cons x t =>
    have hfront : (x :: t).dropWhile pyIsSpace = x :: t :=
      dropWhile_eq_self_of_head (h1 x rfl)
    rw [pyStrip, hfront]
    cases hr : (x :: t).reverse with
    | nil => exact absurd (congrArg List.length hr) (by simp)
    | cons y r =>
      have hy : pyIsSpace y = false := by
        refine h2 y ?_
        rw [← List.head?_reverse, hr]
        rfl
      rw [dropWhile_eq_self_of_head hy, ← hr, List.reverse_reverse]

theorem pyIsSpace_cases {c : Char} (h : pyIsSpace c = true) :
    c = ' ' ∨ c = '\t' ∨ c = '\n' ∨ c = '\r' ∨ c = '\x0b' ∨ c = '\x0c' := by
  simpa [pyIsSpace, or_assoc] using h

theorem digit_not_space {c : Char} (h : c.isDigit = true) : pyIsSpace c = false := by
  by_contra h'
  rcases pyIsSpace_cases (by simpa using h') with rfl | rfl | rfl | rfl | rfl | rfl <;>
    simp at h

theorem digit_toNat_le {c : Char} (h : c.isDigit = true) : c.toNat ≤ 57 := by
  rw [Char.isDigit, Bool.and_eq_true] at h
  have h2 := h.2
  simp only [decide_eq_true_eq] at h2
  exact h2

theorem toUpper_digit {c : Char} (h : c.isDigit = true) : Char.toUpper c = c := by
  have hn : c.toNat ≤ 57 := digit_toNat_le h
  rw [Char.toUpper, if_neg]
  simp only [ge_iff_le, not_and]
  intro h97
  omega

/-- A block whose first character is not whitespace survives a whitespace
`dropWhile` as a block: at most some of the prefix `a` is consumed. -/
theorem dropWhile_occ {p : Str} (hne : p ≠ [])
    (hp : ∀ c, p.head? = some c → pyIsSpace c = false) (a b : Str) :
    ∃ a1, (a ++ p ++ b).dropWhile pyIsSpace = a1 ++ p ++ b := by
  rw [List.append_assoc, List.dropWhile_append]
  split
  · cases p with
    | nil => exact absurd rfl hne
    | cons c t =>
      refine ⟨[], ?_⟩
      have hcons : (c :: t) ++ b = c :: (t ++ b) := rfl
      rw [hcons, dropWhile_eq_self_of_head (hp c rfl)]
      simp
  · exact ⟨a.dropWhile pyIsSpace, by rw [List.append_assoc]⟩

/-- An occurrence of a pattern with non-whitespace first and last characters
survives `strip()`. -/
theorem containsSub_pyStrip {p l : Str} (hne : p ≠ [])
    (hh : ∀ c, p.head? = some c → pyIsSpace c = false)
    (hl : ∀ c, p.getLast? = some c → pyIsSpace c = false)
    (h : containsSub p l = true) : containsSub p (pyStrip l) = true := by
  obtain ⟨a, b, rfl⟩ := containsSub_iff.mp h
  obtain ⟨a1, h1⟩ := dropWhile_occ hne hh a b
  have hrevne : p.reverse ≠ [] := by
    intro hx
    exact hne (by simpa using congrArg List.reverse hx)
  have hrevh : ∀ c, p.reverse.head? = some c → pyIsSpace c = false := by
    intro c hc
    exact hl c (by rwa [List.head?_reverse] at hc)
  obtain ⟨b1, h2⟩ := dropWhile_occ hrevne hrevh b.reverse a1.reverse
  refine containsSub_iff.mpr ⟨a1, b1.reverse, ?_⟩
  rw [pyStrip, h1]
  have hrev : (a1 ++ p ++ b).reverse = b.reverse ++ p.reverse ++ a1.reverse := by
    simp [List.reverse_append, List.append_assoc]
  rw [hrev, h2]
  simp [List.reverse_append, List.append_assoc]

theorem vramAccept_bounds {r : Option Str} {next : Option Nat} {v : Nat}
    (hnext : ∀ u, next = some u → 1 ≤ u ∧ u ≤ 24)
    (h : vramAccept r next = some v) : 1 ≤ v ∧ v ≤ 24 := by
  match r with
  | none => exact hnext v h
  | some ds =>
    rw [vramAccept] at h
    split at h
    · next hband => exact (Option.some_inj.mp h) ▸ hband
    · exact hnext v h

theorem extractVram_bounds {text : Str} {v : Nat}
    (h : extractVram text = some v) : 1 ≤ v ∧ v ≤ 24 := by
  rw [extractVram] at h
  refine vramAccept_bounds (fun u hu => ?_) h
  refine vramAccept_bounds (fun u hu => ?_) hu
  refine vramAccept_bounds (fun u hu => ?_) hu
  refine vramAccept_bounds (fun u hu => ?_) hu
  cases hu

theorem priceAccept_bounds {r : Option Str} {next : Option ℚ} {v : ℚ}
    (hnext : ∀ u, next = some u → mkRat 10 1 ≤ u ∧ u ≤ mkRat 10000 1)
    (h : priceAccept r next = some v) : mkRat 10 1 ≤ v ∧ v ≤ mkRat 10000 1 := by
  match r with
  | none => exact hnext v h
  | some g =>
    rw [priceAccept] at h
    split at h
    · split at h
      · next hband => exact (Option.some_inj.mp h) ▸ hband
      · exact hnext v h
    · exact hnext v h

theorem extract_price_bounds {s : Str} {v : ℚ}
    (h : extract_price s = some v) : mkRat 10 1 ≤ v ∧ v ≤ mkRat 10000 1 := by
  rw [extract_price] at h
  split at h
  · cases h
  · refine priceAccept_bounds (fun u hu => ?_) h
    refine priceAccept_bounds (fun u hu => ?_) hu
    refine priceAccept_bounds (fun u hu => ?_) hu
    refine priceAccept_bounds (fun u hu => ?_) hu
    cases hu

theorem digits2_eq_some {s g r : Str} (h : digits2 s = some (g, r)) :
    ∃ d1 d2, g = [d1, d2] ∧ d1.isDigit = true ∧ d2.isDigit = true := by
  match s with
  | [] => cases h
  | [_] => cases h
  | d1 :: d2 :: rest =>
    rw [digits2] at h
    split at h
    · next hd =>
      obtain ⟨hd1, hd2⟩ := Bool.and_eq_true _ _ |>.mp hd
      obtain ⟨hg, -⟩ := Prod.mk.injEq _ _ _ _ ▸ Option.some_inj.mp h
      exact ⟨d1, d2, hg.symm, hd1, hd2⟩
    · cases h

theorem digits3_eq_some {s g r : Str} (h : digits3 s = some (g, r)) :
    ∃ d1 d2 d3, g = [d1, d2, d3] ∧ d1.isDigit = true ∧ d2.isDigit = true ∧
      d3.isDigit = true := by
  match s with
  | [] => cases h
  | [_] => cases h
  | [_, _] => cases h
  | d1 :: d2 :: d3 :: rest =>
    rw [digits3] at h
    split at h
    · next hd =>
      simp only [Bool.and_eq_true] at hd
      obtain ⟨hg, -⟩ := Prod.mk.injEq _ _ _ _ ▸ Option.some_inj.mp h
      exact ⟨d1, d2, d3, hg.symm, hd.1.1, hd.1.2, hd.2⟩
    · cases h

theorem digits4_eq_some {s g r : Str} (h : digits4 s = some (g, r)) :
    ∃ d1 d2 d3 d4, g = [d1, d2, d3, d4] ∧ d1.isDigit = true ∧ d2.isDigit = true ∧
      d3.isDigit = true ∧ d4.isDigit = true := by
  match s with
  | [] => cases h
  | [_] => cases h
  | [_, _] => cases h
  | [_, _, _] => cases h
  | d1 :: d2 :: d3 :: d4 :: rest =>
    rw [digits4] at h
    split at h
    · next hd =>
      simp only [Bool.and_eq_true] at hd
      obtain ⟨hg, -⟩ := Prod.mk.injEq _ _ _ _ ▸ Option.some_inj.mp h
      exact ⟨d1, d2, d3, d4, hg.symm, hd.1.1.1, hd.1.1.2, hd.1.2, hd.2⟩
    · cases h

theorem matchRtx40At_shape {s g : Str} (h : matchRtx40At s = some g) :
    ∃ d1 d2, g = [d1, d2] ∧ d1.isDigit = true ∧ d2.isDigit = true := by
  rw [matchRtx40At] at h
  split at h
  · cases h
  · split at h
    · cases h
    · rw [Option.map_eq_some'] at h
      obtain ⟨⟨g', r⟩, hd, rfl⟩ := h
      exact digits2_eq_some hd

theorem matchGeforceAt_shape {s g : Str} (h : matchGeforceAt s = some g) :
    ∃ d1 d2 d3 d4, g = [d1, d2, d3, d4] ∧ d1.isDigit = true ∧ d2.isDigit = true ∧
      d3.isDigit = true ∧ d4.isDigit = true := by
  rw [matchGeforceAt] at h
  split at h
  · cases h
  · split at h
    · cases h
    · rw [Option.map_eq_some'] at h
      obtain ⟨⟨g', r⟩, hd, rfl⟩ := h
      exact digits4_eq_some hd

theorem matchArcAt_shape {s sl : Str} (h : matchArcAt s = some sl) :
    ∃ c d1 d2 d3, sl = [c, d1, d2, d3] ∧ d1.isDigit = true ∧ d2.isDigit = true ∧
      d3.isDigit = true := by
  rw [matchArcAt] at h
  split at h
  · cases h
  · split at h
    · cases h
    · next c rest _ =>
      split at h
      · split at h
        · next hd =>
          obtain ⟨d1, d2, d3, hg, h1, h2, h3⟩ := digits3_eq_some hd
          exact ⟨c, d1, d2, d3, by rw [← Option.some_inj.mp h, hg], h1, h2, h3⟩
        · cases h
      · cases h

theorem matchIntelArcAt_shape {s sl : Str} (h : matchIntelArcAt s = some sl) :
    ∃ c d1 d2 d3, sl = [c, d1, d2, d3] ∧ d1.isDigit = true ∧ d2.isDigit = true ∧
      d3.isDigit = true := by
  rw [matchIntelArcAt] at h
  split at h
  · cases h
  · exact matchArcAt_shape h

theorem extractVram_cases (text : Str) :
    extractVram text = none ∨ ∃ v, extractVram text = some v ∧ 1 ≤ v ∧ v ≤ 24 := by
  cases h : extractVram text with
  | none => exact Or.inl rfl
  | some v => exact Or.inr ⟨v, rfl, extractVram_bounds h⟩

theorem append_Ti_ne_nil (m : Str) : m ++ " Ti".toList ≠ [] := by
  intro h
  have := congrArg List.length h
  simp at this

theorem mkNvidiaInfo_model_ne_nil {text series core : Str} {c : Char}
    (hc : c ∈ core) (hns : pyIsSpace c = false) :
    (mkNvidiaInfo text series core).model ≠ [] := by
  rw [mkNvidiaInfo]
  simp only
  split
  · exact append_Ti_ne_nil _
  · exact pyStrip_ne_nil hc hns

theorem mkAmdInfo_model_ne_nil {text series : Str} {lead : Char}
    {g : Str × Option Str} (hns : pyIsSpace lead = false) :
    (mkAmdInfo text series lead g).model ≠ [] := by
  rw [mkAmdInfo]
  exact pyStrip_ne_nil (List.mem_cons_self lead _) hns

theorem mkIntelInfo_model_ne_nil {text : Str} {sl : Str} {d : Char}
    (hd : d ∈ sl) (hdig : d.isDigit = true) :
    (mkIntelInfo text sl).model ≠ [] := by
  rw [mkIntelInfo]
  simp only
  refine pyStrip_ne_nil (c := Char.toUpper d) (List.mem_map_of_mem _ hd) ?_
  rw [toUpper_digit hdig]
  exact digit_not_space hdig

theorem matchNvidia_inv {text : Str} {g : GPUInfo} (h : matchNvidia text = some g) :
    GPUInfoInv g := by
  have hv := extractVram_cases text
  rw [matchNvidia] at h
  split at h
  · obtain rfl := (Option.some_inj.mp h).symm
    exact ⟨Or.inl rfl, List.cons_ne_nil _ _, List.cons_ne_nil _ _,
      mkNvidiaInfo_model_ne_nil (List.mem_cons_self _ _) (by decide), rfl, hv⟩
  · split at h
    · obtain rfl := (Option.some_inj.mp h).symm
      exact ⟨Or.inl rfl, List.cons_ne_nil _ _, List.cons_ne_nil _ _,
        mkNvidiaInfo_model_ne_nil (List.mem_cons_self _ _) (by decide), rfl, hv⟩
    · split at h
      · obtain rfl := (Option.some_inj.mp h).symm
        exact ⟨Or.inl rfl, List.cons_ne_nil _ _, List.cons_ne_nil _ _,
          mkNvidiaInfo_model_ne_nil (List.mem_cons_self _ _) (by decide), rfl, hv⟩
      · split at h
        · obtain rfl := (Option.some_inj.mp h).symm
          exact ⟨Or.inl rfl, List.cons_ne_nil _ _, List.cons_ne_nil _ _,
            mkNvidiaInfo_model_ne_nil (List.mem_cons_self _ _) (by decide), rfl, hv⟩
        · split at h
          · obtain rfl := (Option.some_inj.mp h).symm
            exact ⟨Or.inl rfl, List.cons_ne_nil _ _, List.cons_ne_nil _ _,
              mkNvidiaInfo_model_ne_nil (List.mem_cons_self _ _) (by decide), rfl, hv⟩
          · split at h
            · next g0 hs =>
              obtain rfl := (Option.some_inj.mp h).symm
              obtain ⟨t, -, hAt⟩ := searchFirst_eq_some hs
              obtain ⟨d1, d2, d3, d4, rfl, hd1, -, -, -⟩ := matchGeforceAt_shape hAt
              exact ⟨Or.inl rfl, List.cons_ne_nil _ _, List.cons_ne_nil _ _,
                mkNvidiaInfo_model_ne_nil (List.mem_cons_self _ _) (digit_not_space hd1),
                rfl, hv⟩
            · cases h

theorem matchAmd_inv {text : Str} {g : GPUInfo} (h : matchAmd text = some g) :
    GPUInfoInv g := by
  have hv := extractVram_cases text
  rw [matchAmd] at h
  split at h
  · obtain rfl := (Option.some_inj.mp h).symm
    exact ⟨Or.inr (Or.inl rfl), List.cons_ne_nil _ _, List.cons_ne_nil _ _,
      mkAmdInfo_model_ne_nil (by decide), rfl, hv⟩
  · split at h
    · obtain rfl := (Option.some_inj.mp h).symm
      exact ⟨Or.inr (Or.inl rfl), List.cons_ne_nil _ _, List.cons_ne_nil _ _,
        mkAmdInfo_model_ne_nil (by decide), rfl, hv⟩
    · split at h
      · obtain rfl := (Option.some_inj.mp h).symm
        exact ⟨Or.inr (Or.inl rfl), List.cons_ne_nil _ _, List.cons_ne_nil _ _,
          mkAmdInfo_model_ne_nil (by decide), rfl, hv⟩
      · split at h
        · obtain rfl := (Option.some_inj.mp h).symm
          exact ⟨Or.inr (Or.inl rfl), List.cons_ne_nil _ _, List.cons_ne_nil _ _,
            mkAmdInfo_model_ne_nil (by decide), rfl, hv⟩
        · cases h

theorem matchIntel_inv {text : Str} {g : GPUInfo} (h : matchIntel text = some g) :
    GPUInfoInv g := by
  have hv := extractVram_cases text
  rw [matchIntel] at h
  split at h
  · next sl hs =>
    obtain rfl := (Option.some_inj.mp h).symm
    obtain ⟨t, -, hAt⟩ := searchFirst_eq_some hs
    obtain ⟨c, d1, d2, d3, rfl, hd1, -, -⟩ := matchArcAt_shape hAt
    exact ⟨Or.inr (Or.inr rfl), List.cons_ne_nil _ _, List.cons_ne_nil _ _,
      mkIntelInfo_model_ne_nil (by simp) hd1, rfl, hv⟩
  · split at h
    · next sl hs =>
      obtain rfl := (Option.some_inj.mp h).symm
      obtain ⟨t, -, hAt⟩ := searchFirst_eq_some hs
      obtain ⟨c, d1, d2, d3, rfl, hd1, -, -⟩ := matchIntelArcAt_shape hAt
      exact ⟨Or.inr (Or.inr rfl), List.cons_ne_nil _ _, List.cons_ne_nil _ _,
        mkIntelInfo_model_ne_nil (by simp) hd1, rfl, hv⟩
    · cases h

/-!
## Claim theorems
-/

/-- C1 (counterexample): on the end-to-end input
`{title: "MSI RTX 4090 Gaming X Trio 24GB", price: "£1,450.00",
condition: "Used - Excellent"}`, the standardizer's condition is
`"Like New"` (the variant `"excellent"` belongs to the Like New category),
not `"Good"` as the claim states. -/
theorem spec_C1_counterexample :
    (standardize_listing rawScenario).map (fun S => S.condition) =
      some "Like New".toList ∧ "Like New".toList ≠ "Good".toList :=
  ⟨by decide, by decide⟩

/-- C1 (amended): the end-to-end input above yields
gpu_manufacturer `NVIDIA`, gpu_series `RTX 40`, gpu_model `4090`,
vram_gb `24`, card_manufacturer `MSI`, standardized_price `1450.0`, and
condition `"Like New"` (not `"Good"`). -/
theorem spec_C1_amended :
    (standardize_listing rawScenario).map (fun S => S.gpu_manufacturer) =
      some "NVIDIA".toList ∧
    (standardize_listing rawScenario).map (fun S => S.gpu_series) =
      some "RTX 40".toList ∧
    (standardize_listing rawScenario).map (fun S => S.gpu_model) =
      some "4090".toList ∧
    (standardize_listing rawScenario).map (fun S => S.vram_gb) = some (some 24) ∧
    (standardize_listing rawScenario).map (fun S => S.card_manufacturer) =
      some (some "MSI".toList) ∧
    (standardize_listing rawScenario).map (fun S => S.standardized_price) =
      some (some (mkRat 1450 1)) ∧
    (standardize_listing rawScenario).map (fun S => S.condition) =
      some "Like New".toList := by
  refine ⟨by decide, by decide, by decide, by decide, by decide, by decide, by decide⟩

/-- C2: condition normalization follows the specification's algorithm
(fixed category order New, Like New, Good, Fair, Poor; variants in declared
order; first substring hit returns the title-cased category; empty input
maps to Unknown; otherwise the original input is returned title-cased), and
the three quoted examples hold. -/
theorem spec_C2 :
    (∀ s, standardize_condition s = conditionSpecC2 s) ∧
    standardize_condition "Brand New".toList = "New".toList ∧
    standardize_condition [] = "Unknown".toList ∧
    standardize_condition "slightly scuffed".toList = "Slightly Scuffed".toList := by
  refine ⟨fun s => ?_, by decide, by decide, by decide⟩
  rw [standardize_condition, conditionSpecC2]
  split
  · rfl
  · simp only [condition_map, scanConditions]
    split_ifs <;> rfl

/-- C6: price extraction behaves as specified on the quoted examples
(`"£450.00"` → 450.0, `"450.00 ono"` → 450.0, `"£50000"` → none, `""` →
none), and every accepted price lies in the `[10, 10000]` band. -/
theorem spec_C6 :
    extract_price [] = none ∧
    extract_price "£450.00".toList = some (mkRat 450 1) ∧
    extract_price "450.00 ono".toList = some (mkRat 450 1) ∧
    extract_price "£50000".toList = none ∧
    (∀ s v, extract_price s = some v → mkRat 10 1 ≤ v ∧ v ≤ mkRat 10000 1) :=
  ⟨by decide, by decide, by decide, by decide, fun _ _ h => extract_price_bounds h⟩

/-- C6 witness: the band property applied to the accepted `"£450.00"`. -/
theorem spec_C6_witness :
    mkRat 10 1 ≤ mkRat 450 1 ∧ mkRat 450 1 ≤ mkRat 10000 1 :=
  spec_C6.2.2.2.2 "£450.00".toList (mkRat 450 1) (by decide)

/-- C7: VRAM extraction behaves as specified on the quoted examples
(`"12GB GDDR6X"` → 12, `"33GB"` → none, `""` → none), and every accepted
value lies in `[1, 24]`. -/
theorem spec_C7 :
    extractVram "12GB GDDR6X".toList = some 12 ∧
    extractVram "33GB".toList = none ∧
    extractVram [] = none ∧
    (∀ t v, extractVram t = some v → 1 ≤ v ∧ v ≤ 24) :=
  ⟨by decide, by decide, by decide, fun _ _ h => extractVram_bounds h⟩

/-- C7 witness: the range property applied to the accepted `"12GB GDDR6X"`. -/
theorem spec_C7_witness : 1 ≤ 12 ∧ 12 ≤ 24 :=
  spec_C7.2.2.2 "12GB GDDR6X".toList 12 (by decide)

/-- C10: any non-empty condition string containing `"new"` case-insensitively
normalizes to `"New"`: the New category's variant `"new"` is tested before
the Like New category (so in particular `"Like New"` itself maps to
`"New"`). -/
theorem spec_C10 :
    ∀ s : Str, s ≠ [] → containsSub "new".toList (s.map Char.toLower) = true →
      standardize_condition s = "New".toList := by
  intro s hne hnew
  have hnew' : containsSub "new".toList (pyStrip (s.map Char.toLower)) = true := by
    refine containsSub_pyStrip (by decide) ?_ ?_ hnew
    · intro c hc
      injection hc with h
      subst h
      decide
    · intro c hc
      injection hc with h
      subst h
      decide
  rw [standardize_condition, if_neg hne]
  simp only [condition_map, scanConditions, List.any_cons, hnew', Bool.true_or, if_true]
  decide

/-- C10 witness: `"Like New"` itself normalizes to `"New"`. -/
theorem spec_C10_witness : standardize_condition "Like New".toList = "New".toList :=
  spec_C10 "Like New".toList (by decide) (by decide)

/-- C3 (counterexample): `"RTX 5080 RTX 4070 Ti"` contains the substring
`"RTX 4070 Ti"`, but the RTX 50 rule is tried first, so the extracted series
is `"RTX 50"`, not `"RTX 40"`. -/
theorem spec_C3_counterexample :
    containsSub "RTX 4070 Ti".toList
      ("RTX 5080 RTX 4070 Ti".toList ++ ' ' :: ([] : Str)) = true ∧
    (extract_gpu_info "RTX 5080 RTX 4070 Ti".toList []).map (fun g => g.series) =
      some "RTX 50".toList ∧
    "RTX 50".toList ≠ "RTX 40".toList :=
  ⟨by decide, by decide, by decide⟩

/-- C3 (amended): for every title/description whose combined text contains
`"RTX 4070 Ti"` and on which the RTX 50 rule does not match, the extractor
yields manufacturer NVIDIA, series `"RTX 40"`, and a model ending in
`"Ti"`. -/
theorem spec_C3_amended :
    ∀ title description : Str,
      containsSub "RTX 4070 Ti".toList (title ++ ' ' :: description) = true →
      searchFirst matchRtx50At ((title ++ ' ' :: description).map Char.toLower) = none →
      ∃ g, extract_gpu_info title description = some g ∧
        g.manufacturer = "NVIDIA".toList ∧ g.series = "RTX 40".toList ∧
        ∃ m, g.model = m ++ "Ti".toList := by
  intro title description h1 h50
  set text := (title ++ ' ' :: description).map Char.toLower with htext
  have h1' : containsSub "rtx 4070 ti".toList text = true := by
    have hm := containsSub_map Char.toLower h1
    rwa [show "RTX 4070 Ti".toList.map Char.toLower = "rtx 4070 ti".toList from rfl] at hm
  obtain ⟨a, b, hocc⟩ := containsSub_iff.mp h1'
  have htail : IsTail ("rtx 4070 ti".toList ++ b) text :=
    ⟨a, by rw [hocc, List.append_assoc]⟩
  have hAt : matchRtx40At ("rtx 4070 ti".toList ++ b) = some "70".toList := rfl
  have hsome : (searchFirst matchRtx40At text).isSome :=
    searchFirst_isSome_of_tail htail (by rw [hAt]; rfl)
  obtain ⟨g40, hg40⟩ := Option.isSome_iff_exists.mp hsome
  obtain ⟨t, -, hAt'⟩ := searchFirst_eq_some hg40
  obtain ⟨d1, d2, rfl, hd1, hd2⟩ := matchRtx40At_shape hAt'
  have hti : containsSub "ti".toList text = true :=
    containsSub_of_within h1' "rtx 4070 ".toList [] (by decide)
  have hN : matchNvidia text =
      some (mkNvidiaInfo text "RTX 40".toList ('4' :: '0' :: [d1, d2])) := by
    rw [matchNvidia, h50, hg40]
  have hmodel : pyStrip ('4' :: '0' :: [d1, d2]) = '4' :: '0' :: [d1, d2] := by
    refine pyStrip_eq_self ?_ ?_
    · intro c hc
      injection hc with h
      subst h
      decide
    · intro c hc
      have hs : some d2 = some c := hc
      injection hs with h
      subst h
      exact digit_not_space hd2
  have hE : extract_gpu_info title description =
      some (mkNvidiaInfo text "RTX 40".toList ('4' :: '0' :: [d1, d2])) := by
    rw [extract_gpu_info, ← htext, hN]
  refine ⟨_, hE, rfl, rfl, '4' :: '0' :: d1 :: d2 :: [' '], ?_⟩
  rw [show (mkNvidiaInfo text "RTX 40".toList ('4' :: '0' :: [d1, d2])).model =
      (if containsSub "ti".toList text then
        pyStrip ('4' :: '0' :: [d1, d2]) ++ " Ti".toList
      else pyStrip ('4' :: '0' :: [d1, d2])) from rfl, hti, if_pos rfl, hmodel]
  rfl

/-- C3 witness for the amended claim: the clean input `"RTX 4070 Ti"`. -/
theorem spec_C3_witness :
    ∃ g, extract_gpu_info "RTX 4070 Ti".toList [] = some g ∧
      g.manufacturer = "NVIDIA".toList ∧ g.series = "RTX 40".toList ∧
      ∃ m, g.model = m ++ "Ti".toList :=
  spec_C3_amended "RTX 4070 Ti".toList [] (by decide) (by decide)

/-- C4 (counterexample): with model `"4090 Ti"` and configured NVIDIA target
`"TI"`, the case-insensitive contract says the filter should accept, but
`validate_gpu_targets` compares the configured string verbatim against the
lowercased model and rejects. -/
theorem spec_C4_counterexample :
    validate_gpu_targets infoTiC4 cfgTiC4 = false ∧
    claimTargetMatchC4 infoTiC4 cfgTiC4 = true :=
  ⟨by decide, by decide⟩

/-- C4 (amended): the filter accepts iff some configured target for the
identity's manufacturer matches the lowercased model — where the NVIDIA and
AMD targets are compared as configured (case-sensitively), and only Intel
targets are lowercased before the comparison. -/
theorem spec_C4_amended :
    ∀ (gpu_info : GPUInfo) (config : Config),
      validate_gpu_targets gpu_info config = true ↔
        ((gpu_info.manufacturer.map Char.toLower = "nvidia".toList ∧
          ∃ series ∈ config.gpu_targets.nvidia_series,
            containsSub series (gpu_info.model.map Char.toLower) = true) ∨
         (gpu_info.manufacturer.map Char.toLower = "amd".toList ∧
          ∃ series ∈ config.gpu_targets.amd_series,
            containsSub series (gpu_info.model.map Char.toLower) = true) ∨
         (gpu_info.manufacturer.map Char.toLower = "intel".toList ∧
          ∃ target_model ∈ config.gpu_targets.intel_models,
            containsSub (target_model.map Char.toLower)
              (gpu_info.model.map Char.toLower) = true)) := by
  intro gpu_info config
  rw [validate_gpu_targets]
  split_ifs with h1 h2 h3
  · rw [List.any_eq_true]
    constructor
    · rintro ⟨s, hs, hc⟩
      exact Or.inl ⟨h1, s, hs, hc⟩
    · rintro (⟨-, s, hs, hc⟩ | ⟨hbad, -⟩ | ⟨hbad, -⟩)
      · exact ⟨s, hs, hc⟩
      · rw [h1] at hbad
        exact absurd hbad (by decide)
      · rw [h1] at hbad
        exact absurd hbad (by decide)
  · rw [List.any_eq_true]
    constructor
    · rintro ⟨s, hs, hc⟩
      exact Or.inr (Or.inl ⟨h2, s, hs, hc⟩)
    · rintro (⟨hbad, -⟩ | ⟨-, s, hs, hc⟩ | ⟨hbad, -⟩)
      · exact absurd hbad h1
      · exact ⟨s, hs, hc⟩
      · rw [h2] at hbad
        exact absurd hbad (by decide)
  · rw [List.any_eq_true]
    constructor
    · rintro ⟨s, hs, hc⟩
      exact Or.inr (Or.inr ⟨h3, s, hs, hc⟩)
    · rintro (⟨hbad, -⟩ | ⟨hbad, -⟩ | ⟨-, s, hs, hc⟩)
      · exact absurd hbad h1
      · exact absurd hbad h2
      · exact ⟨s, hs, hc⟩
  · constructor
    · intro hx
      exact absurd hx (by decide)
    · rintro (⟨hbad, -⟩ | ⟨hbad, -⟩ | ⟨hbad, -⟩)
      · exact absurd hbad h1
      · exact absurd hbad h2
      · exact absurd hbad h3

/-- C5: every extracted GPU identity has a manufacturer among NVIDIA, AMD
and Intel (in particular non-empty), non-empty series and model, confidence
exactly 0.9, and VRAM absent or in `[1, 24]`; and when no vendor pattern
matches, no identity is produced at all. -/
theorem spec_C5 :
    (∀ title description g, extract_gpu_info title description = some g →
      (g.manufacturer = "NVIDIA".toList ∨ g.manufacturer = "AMD".toList ∨
        g.manufacturer = "Intel".toList) ∧
      g.manufacturer ≠ [] ∧ g.series ≠ [] ∧ g.model ≠ [] ∧
      g.confidence_score = mkRat 9 10 ∧
      (g.vram = none ∨ ∃ v, g.vram = some v ∧ 1 ≤ v ∧ v ≤ 24)) ∧
    (∀ title description,
      matchNvidia ((title ++ ' ' :: description).map Char.toLower) = none →
      matchAmd ((title ++ ' ' :: description).map Char.toLower) = none →
      matchIntel ((title ++ ' ' :: description).map Char.toLower) = none →
      extract_gpu_info title description = none) := by
  constructor
  · intro title description g h
    rw [extract_gpu_info] at h
    split at h
    · next g0 heq =>
      obtain rfl := Option.some_inj.mp h
      exact matchNvidia_inv heq
    · split at h
      · next g0 heq =>
        obtain rfl := Option.some_inj.mp h
        exact matchAmd_inv heq
      · split at h
        · next g0 heq =>
          obtain rfl := Option.some_inj.mp h
          exact matchIntel_inv heq
        · cases h
  · intro title description hn ha hi
    rw [extract_gpu_info, hn, ha, hi]

/-- C5 witness: the invariant instantiated on the title `"Arc A770"`. -/
theorem spec_C5_witness :
    ((infoArcC5.manufacturer = "NVIDIA".toList ∨
      infoArcC5.manufacturer = "AMD".toList ∨
      infoArcC5.manufacturer = "Intel".toList) ∧
    infoArcC5.manufacturer ≠ [] ∧ infoArcC5.series ≠ [] ∧ infoArcC5.model ≠ [] ∧
    infoArcC5.confidence_score = mkRat 9 10 ∧
    (infoArcC5.vram = none ∨ ∃ v, infoArcC5.vram = some v ∧ 1 ≤ v ∧ v ≤ 24)) :=
  spec_C5.1 "Arc A770".toList [] infoArcC5 (by decide)

/-- C8: `standardize_listing` never propagates a failure — it returns a
standardized record or nothing — and it returns nothing whenever the
`title`, `description` or `price` field holds a non-string (the caught
exception path), whenever the title is empty after trimming, and
whenever no GPU pattern matches the combined title and description. -/
theorem spec_C8 :
    ∀ raw : RawListing,
      (standardize_listing raw = none ∨ ∃ S, standardize_listing raw = some S) ∧
      ((raw.title.getD (.vStr [])).isStr = false →
        standardize_listing raw = none) ∧
      ((raw.description.getD (.vStr [])).isStr = false →
        standardize_listing raw = none) ∧
      ((raw.price.getD (.vStr [])).isStr = false →
        standardize_listing raw = none) ∧
      (∀ t, raw.title.getD (.vStr []) = .vStr t → pyStrip t = [] →
        standardize_listing raw = none) ∧
      (∀ t d, raw.title.getD (.vStr []) = .vStr t →
        raw.description.getD (.vStr []) = .vStr d →
        extract_gpu_info (pyStrip t) (pyStrip d) = none →
        standardize_listing raw = none) := by
  intro raw
  refine ⟨?_, ?_, ?_, ?_, ?_, ?_⟩
  · cases h : standardize_listing raw with
    | none => exact Or.inl rfl
    | some S => exact Or.inr ⟨S, rfl⟩
  · intro h
    rw [standardize_listing]
    rcases hT : raw.title.getD (.vStr []) with s | b | _
    · rw [hT] at h
      simp [Value.isStr] at h
    · simp [standardizeE, hT, pyStripV]
    · simp [standardizeE, hT, pyStripV]
  · intro h
    rw [standardize_listing]
    rcases hD : raw.description.getD (.vStr []) with s | b | _
    · rw [hD] at h
      simp [Value.isStr] at h
    · rcases hT : raw.title.getD (.vStr []) with s' | b' | _ <;>
        simp [standardizeE, hT, hD, pyStripV]
    · rcases hT : raw.title.getD (.vStr []) with s' | b' | _ <;>
        simp [standardizeE, hT, hD, pyStripV]
  · intro h
    rw [standardize_listing]
    rcases hP : raw.price.getD (.vStr []) with s | b | _
    · rw [hP] at h
      simp [Value.isStr] at h
    · rcases hT : raw.title.getD (.vStr []) with s' | b' | _ <;>
        rcases hD : raw.description.getD (.vStr []) with s'' | b'' | _ <;>
          simp [standardizeE, hT, hD, hP, pyStripV]
    · rcases hT : raw.title.getD (.vStr []) with s' | b' | _ <;>
        rcases hD : raw.description.getD (.vStr []) with s'' | b'' | _ <;>
          simp [standardizeE, hT, hD, hP, pyStripV]
  · intro t hT hstrip
    rw [standardize_listing]
    rcases hD : raw.description.getD (.vStr []) with s | b | _ <;>
      rcases hP : raw.price.getD (.vStr []) with s' | b' | _ <;>
        simp [standardizeE, hT, hD, hP, pyStripV, hstrip]
  · intro t d hT hD hextract
    rw [standardize_listing]
    rcases hP : raw.price.getD (.vStr []) with s | b | _
    · simp only [standardizeE, hT, hD, hP, pyStripV, hextract]
      by_cases hc : pyStrip t = [] <;> simp [hc]
    · simp [standardizeE, hT, hD, hP, pyStripV]
    · simp [standardizeE, hT, hD, hP, pyStripV]

/-- C8 witness: a listing with a boolean `title` is rejected without an
exception, as are a whitespace-only title and a non-GPU title. -/
theorem spec_C8_witness :
    standardize_listing rawTitleBool = none ∧
    standardize_listing rawBlankTitle = none ∧
    standardize_listing rawChair = none :=
  ⟨(spec_C8 rawTitleBool).2.1 (by decide),
   (spec_C8 rawBlankTitle).2.2.2.2.1 "   ".toList (by decide) (by decide),
   (spec_C8 rawChair).2.2.2.2.2 "Office Chair for sale".toList []
     (by decide) (by decide) (by decide)⟩

theorem pyStripV_eq_ok {v : Value} {t : Str} (h : pyStripV v = .ok t) :
    ∃ s, v = .vStr s ∧ t = pyStrip s := by
  cases v with
  | vStr s =>
    refine ⟨s, rfl, ?_⟩
    rw [pyStripV] at h
    exact (Except.ok.inj h).symm
  | vBool b => cases h
  | vNone => cases h

/-- Inversion of an accepted standardization: the output's text fields are
the stripped raw fields, the title is non-empty, and the GPU fields are
those extracted from the output's own title and description. -/
theorem standardize_accept {raw : RawListing} {S : StandardizedListing}
    (h : standardize_listing raw = some S) :
    ∃ t d g,
      raw.title.getD (.vStr []) = .vStr t ∧
      raw.description.getD (.vStr []) = .vStr d ∧
      S.title = pyStrip t ∧ S.description = pyStrip d ∧ S.title ≠ [] ∧
      extract_gpu_info S.title S.description = some g ∧
      ¬(g.confidence_score < mkRat 3 10) ∧
      S.gpu_manufacturer = g.manufacturer ∧ S.gpu_series = g.series ∧
      S.gpu_model = g.model ∧ S.vram_gb = g.vram ∧
      S.card_manufacturer = g.card_manufacturer ∧
      S.confidence_score = g.confidence_score := by
  rw [standardize_listing] at h
  split at h
  · next r heq =>
    subst h
    rw [standardizeE] at heq
    split at heq
    all_goals try cases heq
    rename_i title0 description0 price0 hT hD hP
    by_cases htn : title0 = []
    · rw [if_pos htn] at heq
      exact absurd (Except.ok.inj heq) (by simp)
    · rw [if_neg htn] at heq
      cases hg : extract_gpu_info title0 description0 with
      | none =>
        rw [hg] at heq
        exact absurd (Except.ok.inj heq) (by simp)
      | some g =>
        rw [hg] at heq
        dsimp only at heq
        by_cases hconf : g.confidence_score < mkRat 3 10
        · rw [if_pos hconf] at heq
          exact absurd (Except.ok.inj heq) (by simp)
        · rw [if_neg hconf] at heq
          cases hcond : stdConditionV (raw.condition.getD (.vStr [])) with
          | error e =>
            rw [hcond] at heq
            cases heq
          | ok c =>
            rw [hcond] at heq
            dsimp only at heq
            obtain hrec := Option.some_inj.mp (Except.ok.inj heq)
            obtain ⟨t0, hT0, hTs⟩ := pyStripV_eq_ok hT
            obtain ⟨d0, hD0, hDs⟩ := pyStripV_eq_ok hD
            subst hrec
            exact ⟨t0, d0, g, hT0, hD0, hTs, hDs, htn, hg, hconf,
              rfl, rfl, rfl, rfl, rfl, rfl⟩
  · cases h

/-- C9: re-standardizing an accepted output (its own fields fed back as a
raw listing) raises no exception, is accepted again, and re-derives the
same GPU fields and confidence from the same title and description. -/
theorem spec_C9 :
    ∀ raw S, standardize_listing raw = some S →
      ∃ S', standardizeE (toRaw S) = .ok (some S') ∧
        S'.gpu_manufacturer = S.gpu_manufacturer ∧
        S'.gpu_series = S.gpu_series ∧ S'.gpu_model = S.gpu_model ∧
        S'.vram_gb = S.vram_gb ∧
        S'.card_manufacturer = S.card_manufacturer ∧
        S'.confidence_score = S.confidence_score := by
  intro raw S h
  obtain ⟨t, d, g, -, -, hSt, hSd, hne, hext, hconf, hm, hs, hmo, hv, hc, hcs⟩ :=
    standardize_accept h
  have hst : pyStrip S.title = S.title := by rw [hSt, pyStrip_idem]
  have hsd : pyStrip S.description = S.description := by rw [hSd, pyStrip_idem]
  rw [standardizeE]
  simp only [toRaw, Option.getD_some, Option.getD_none, pyStripV, hst, hsd]
  rw [if_neg hne, hext]
  dsimp only
  rw [if_neg hconf]
  simp only [stdConditionV]
  exact ⟨_, rfl, hm.symm, hs.symm, hmo.symm, hv.symm, hc.symm, hcs.symm⟩

/-- C9 witness: the minimal accepted listing `{title: "rtx 3060"}`. -/
theorem spec_C9_witness :
    ∃ S', standardizeE (toRaw stdMinimal) = .ok (some S') ∧
      S'.gpu_manufacturer = stdMinimal.gpu_manufacturer ∧
      S'.gpu_series = stdMinimal.gpu_series ∧
      S'.gpu_model = stdMinimal.gpu_model ∧
      S'.vram_gb = stdMinimal.vram_gb ∧
      S'.card_manufacturer = stdMinimal.card_manufacturer ∧
      S'.confidence_score = stdMinimal.confidence_score :=
  spec_C9 rawMinimal stdMinimal (by decide)
